import Mathlib

/-!
Shallow embedding of the fpds_analysis data pipeline
(`src/data_loader.py`, `src/data_processor.py`, `src/main.py`).

JSON documents are modelled by the inductive `Json`; a raw record is a
JSON object, i.e. a list of key/value pairs.  The ingestion routine
`DataLoader.load_json_files` is modelled by `loadJsonFiles` over an
abstract directory value: each candidate `*.json` file is carried with
its content hash and the outcome of parsing it (a top-level list, a
top-level dict, some other shape, or a decode error).  File system reads
and writes are represented by the registry set passed in and the
registry set handed back together with a flag recording whether the
registry file was rewritten.
-/

/-- JSON values as decoded by `json.load`. -/
inductive Json where
  | null : Json
  | bool (b : Bool) : Json
  | num (q : Rat) : Json
  | str (s : String) : Json
  | arr (elems : List Json) : Json
  | obj (fields : List (String × Json)) : Json

/-- A raw record: one top-level JSON object (dict). -/
abbrev Rec := List (String × Json)

/-- Outcome of `json.load` on one input file: a top-level list of
records, a single dict, an unexpected top-level shape, or a
`json.JSONDecodeError`. -/
inductive Doc where
  | list (recs : List Rec) : Doc
  | dict (record : Rec) : Doc
  | other : Doc
  | decodeError : Doc

/-- One `*.json` file of the input directory: its SHA-256 content hash
and the result of decoding it. -/
structure JFile where
  hash : String
  doc : Doc

/-- The configured data directory: whether the path is a directory, and
the `*.json` files it contains, in the sorted order `load_json_files`
enumerates them. -/
structure Directory where
  isDir : Bool
  jsonFiles : List JFile

/-- The two structural failures `load_json_files` raises
(`FileNotFoundError` with the two distinct messages). -/
inductive LoadErr where
  | DirectoryNotFound : LoadErr
  | NoInputFiles : LoadErr
deriving DecidableEq

/-- Result of one `load_json_files` run: the returned record list, the
set of newly processed hashes, whether the registry file was rewritten,
and the registry contents persisted after the run. -/
structure LoadResult where
  records : List Rec
  newlyProcessed : List String
  wroteRegistry : Bool
  persisted : List String

/-- Add a hash to a hash list with set semantics (`set.add`). -/
def insertHash (hs : List String) (h : String) : List String :=
  if h ∈ hs then hs else hs ++ [h]

/-- Set union of hash lists (`set.union`), keeping `hs` and adding the
members of `ns` not already present. -/
def unionHashes (hs ns : List String) : List String :=
  ns.foldl insertHash hs

/-- Body of the per-file loop of `load_json_files`: a decoded list
extends the record accumulator, a dict appends one record, any other
successfully decoded shape adds nothing; in all three cases the file
hash joins the newly-processed set.  A decode error leaves both
accumulators unchanged (`except json.JSONDecodeError: continue`). -/
def processFile (acc : List Rec × List String) (f : JFile) :
    List Rec × List String :=
  match f.doc with
  | Doc.list recs => (acc.1 ++ recs, insertHash acc.2 f.hash)
  | Doc.dict r => (acc.1 ++ [r], insertHash acc.2 f.hash)
  | Doc.other => (acc.1, insertHash acc.2 f.hash)
  | Doc.decodeError => acc

/-- Embedding of `DataLoader.load_json_files`.  The caller supplies the
registry read by `_read_processed_files`; the result carries what the
run returns and what it persists. -/
def loadJsonFiles (dir : Directory) (registry : List String) :
    Except LoadErr LoadResult :=
  if ¬ dir.isDir then Except.error LoadErr.DirectoryNotFound
  else if dir.jsonFiles.isEmpty then Except.error LoadErr.NoInputFiles
  else
    let filesToProcess := dir.jsonFiles.filter (fun f => decide (f.hash ∉ registry))
    if filesToProcess.isEmpty then
      Except.ok ⟨[], [], false, registry⟩
    else
      let res := filesToProcess.foldl processFile ([], [])
      if res.2.isEmpty then
        Except.ok ⟨res.1, res.2, false, registry⟩
      else
        Except.ok ⟨res.1, res.2, true, unionHashes registry res.2⟩

/-!
Column-name normalization (`DataProcessor.sanitize_column_names`).

Python's chained `str.replace` calls each replace one single character
by zero or one characters, so each call is a per-character map; they are
embedded as `pyReplace`, applied in the source's order.  `new_name[0]`
raises `IndexError` on an empty string, which the embedding models as
`Option.none`.
-/

/-- Python `s.replace(old, new)` for a single-character pattern `old`
and a replacement of zero or one characters. -/
def pyReplace (s : List Char) (old : Char) (new : List Char) : List Char :=
  (s.map (fun c => if c = old then new else [c])).flatten

/-- Predicate of the comprehension
`"".join(c for c in new_name if c.isalnum() or c == "_")`. -/
def keepChar (c : Char) : Bool :=
  c.isAlphanum || c == '_'

/-- The five chained `str.replace` calls of `sanitize_column_names`, in
source order: delete `@`, delete `#`, then turn space, `-` and `.` into
`_`. -/
def replaceChain (s : List Char) : List Char :=
  pyReplace (pyReplace (pyReplace (pyReplace (pyReplace s '@' []) '#' [])
    ' ' ['_']) '-' ['_']) '.' ['_']

/-- Embedding of `DataProcessor.sanitize_column_names` on the
characters of a string argument: the five chained replaces, the
alphanumeric-or-underscore filter, then the leading-digit guard, whose
`new_name[0]` crashes (`none`) when the filtered string is empty. -/
def sanitizeChars (s : List Char) : Option (List Char) :=
  match (replaceChain s).filter keepChar with
  | [] => none
  | c :: rest => some (if c.isDigit then '_' :: c :: rest else c :: rest)

/-- String-level `sanitize_column_names`; `none` models the uncaught
`IndexError` on a name whose characters are all removed. -/
def sanitize_column_names (name : String) : Option String :=
  (sanitizeChars name.data).map (fun l => String.mk l)

/-- Modelled from the spec: the ColumnPathNormalizer algorithm stated in
one per-character pass — `@` and `#` deleted outright, space, dash and
dot turned into `_`, any other character kept only when alphanumeric or
`_`, and a leading `_` added when the result starts with a digit (the
empty result is returned as the empty string, the case the spec routes
to `EmptyColumnName`). -/
def specCleanChar (c : Char) : List Char :=
  if c = '@' ∨ c = '#' then []
  else if c = ' ' ∨ c = '-' ∨ c = '.' then ['_']
  else if keepChar c then [c]
  else []

/-- Modelled from the spec: normalization as a whole, following the
spec's wording (see `specCleanChar`). -/
def specNormalize (s : List Char) : List Char :=
  match (s.map specCleanChar).flatten with
  | [] => []
  | c :: rest => if c.isDigit then '_' :: c :: rest else c :: rest

/-!
Flat column names and hierarchical column paths.

`create_dataframe` builds the MultiIndex by `tuple(col.split("_"))` on
each sanitized flat name, and both `main` and the persisted-table reader
rebuild paths the same way; `"_".join` is the inverse direction used by
the flat storage format.  Both are embedded on character lists.
-/

/-- Python `s.split("_")` on the characters of `s`: the result is a
nonempty list of delimiter-free segments. -/
def splitUnderscore : List Char → List (List Char)
  | [] => [[]]
  | c :: cs =>
    match splitUnderscore cs with
    | [] => [[]]
    | seg :: rest =>
      if c = '_' then [] :: seg :: rest else (c :: seg) :: rest

/-- Python `"_".join(segments)`. -/
def joinUnderscore : List (List Char) → List Char
  | [] => []
  | [seg] => seg
  | seg :: rest => seg ++ '_' :: joinUnderscore rest

/-- A hierarchical column path: the tuple of segments of one MultiIndex
column label. -/
abbrev ColPath := List String

/-- Split a flat column name into its ColumnPath
(`tuple(col.split("_"))`). -/
def splitPath (s : String) : ColPath :=
  (splitUnderscore s.data).map (fun l => String.mk l)

/-!
Table building (`DataProcessor.create_dataframe`), merging
(`pd.concat([existing_df, new_data_df], ignore_index=True)` in `main`)
and the numeric aggregation of `calcualte_contract_metrics`.

A table holds its MultiIndex column labels and its rows; each row is an
association list from column path to cell value, and a missing
association is the NaN marker `pd.json_normalize` fills in for a column
the record does not provide.
-/

/-- Flattening of one record as `pd.json_normalize(..., sep="_")` does
it: nested dict values are flattened recursively with the parent key,
`_` and the child key; list values and scalars stay as cell values. -/
def flattenPairs : List (String × Json) → List (String × Json)
  | [] => []
  | (k, Json.obj kvs) :: rest =>
    (flattenPairs kvs).map (fun kv => (k ++ "_" ++ kv.1, kv.2)) ++ flattenPairs rest
  | (k, v) :: rest => (k, v) :: flattenPairs rest

/-- Flat column names of `pd.json_normalize` output: union of the
flattened records' keys, in order of first appearance. -/
def collectCols (flatRecs : List (List (String × Json))) : List String :=
  flatRecs.foldl
    (fun acc r =>
      r.foldl (fun acc2 kv => if kv.1 ∈ acc2 then acc2 else acc2 ++ [kv.1]) acc)
    []

/-- A table with hierarchically labelled columns. -/
structure Table where
  columns : List ColPath
  rows : List (List (ColPath × Json))

/-- The empty DataFrame `pd.DataFrame()`. -/
def emptyTable : Table := { columns := [], rows := [] }

/-- Embedding of `DataProcessor.create_dataframe`: flatten the records
(`pd.json_normalize(data, sep="_")`), sanitize every flat column name,
split each sanitized name on `_` into a path tuple and build the
MultiIndex from those tuples.  `none` models the two failure modes: a
sanitized-away column name (`sanitize_column_names` raising) and
`MultiIndex.from_tuples` on an empty tuple list (zero columns), which
raises in pandas. -/
def create_dataframe (data : List Rec) : Option Table :=
  let flatRecs := data.map flattenPairs
  let cols := collectCols flatRecs
  match cols.mapM sanitize_column_names with
  | none => none
  | some newCols =>
    let paths := newCols.map splitPath
    if paths.isEmpty then none
    else
      some
        { columns := paths,
          rows :=
            flatRecs.map (fun r =>
              r.filterMap (fun kv =>
                (sanitize_column_names kv.1).map (fun n => (splitPath n, kv.2)))) }

/-- Lookup of a cell inside one row's association list; `none` is the
missing-value marker. -/
def findCell (row : List (ColPath × Json)) (p : ColPath) : Option Json :=
  match row with
  | [] => none
  | kv :: rest => if kv.1 = p then some kv.2 else findCell rest p

/-- Cell of a table at row index `i` and column path `p`. -/
def Table.cell (t : Table) (i : Nat) (p : ColPath) : Option Json :=
  match t.rows[i]? with
  | none => none
  | some row => findCell row p

/-- A well-formed table binds row cells only at its own columns. -/
def Wellformed (t : Table) : Prop :=
  ∀ row ∈ t.rows, ∀ k ∈ row.map Prod.fst, k ∈ t.columns

/-- Embedding of the merge step of `main`:
`pd.concat([existing_df, new_data_df], ignore_index=True)` — outer
union of the column sets (existing table's column order first, default
`sort=False`), existing rows first then incoming rows, and the row
index reset to dense positions. -/
def mergeTables (existing incoming : Table) : Table :=
  { columns :=
      existing.columns ++
        incoming.columns.filter (fun c => decide (c ∉ existing.columns)),
    rows := existing.rows ++ incoming.rows }

/-- Digit-string value, used by the numeric coercion of
`pd.to_numeric`. -/
def parseNatDigits (cs : List Char) : Option Nat :=
  match cs with
  | [] => none
  | _ =>
    if cs.all Char.isDigit then
      some (cs.foldl (fun a c => a * 10 + (c.toNat - 48)) 0)
    else none

/-- Numeric reading of a string cell, as `pd.to_numeric` accepts it:
optional sign, decimal digits, optional fraction part. -/
def parseNumeric (s : String) : Option Rat :=
  let core : List Char → Option Rat := fun cs =>
    match cs.span (fun c => c != '.') with
    | (intPart, []) => (parseNatDigits intPart).map (fun n => (n : Rat))
    | (intPart, _ :: frac) =>
      match parseNatDigits intPart, parseNatDigits frac with
      | some i, some f => some ((i : Rat) + (f : Rat) / ((10 : Rat) ^ frac.length))
      | _, _ => none
  match s.data with
  | '-' :: rest => (core rest).map (fun q => -q)
  | '+' :: rest => core rest
  | cs => core cs

/-- Per-value behavior of `pd.to_numeric(..., errors="coerce")`:
numbers pass through, booleans coerce to 0/1, numeric strings parse,
everything else (missing values included) becomes NaN, modelled as
`none`. -/
def to_numeric_coerce (v : Json) : Option Rat :=
  match v with
  | Json.num q => some q
  | Json.bool b => some (if b then 1 else 0)
  | Json.str s => parseNumeric s
  | Json.null => none
  | Json.arr _ => none
  | Json.obj _ => none

/-- Embedding of `pd.to_numeric(column, errors="coerce").sum()` from
`calcualte_contract_metrics`: coerce every cell, drop the failures
(NaN is skipped by `sum`), add up the rest; the empty sum is 0. -/
def sumNumeric (vs : List Json) : Rat :=
  (vs.filterMap to_numeric_coerce).foldl (· + ·) 0

/-- Embedding of the table-update step of `main`: when no records were
loaded (`if data:` falsy) keep the existing table (or the empty
DataFrame); otherwise build the new table and, when an existing table
was read, concatenate existing then new. -/
def mainStep (existing : Option Table) (data : List Rec) : Option Table :=
  if data.isEmpty then
    some (match existing with | some e => e | none => emptyTable)
  else
    match create_dataframe data with
    | none => none
    | some newT =>
      match existing with
      | some e => some (mergeTables e newT)
      | none => some newT

/-!
Lemmas about the normalizer.
-/

theorem pyReplace_append (a b : List Char) (old : Char) (new : List Char) :
    pyReplace (a ++ b) old new = pyReplace a old new ++ pyReplace b old new := by
  simp [pyReplace]

theorem replaceChain_append (a b : List Char) :
    replaceChain (a ++ b) = replaceChain a ++ replaceChain b := by
  simp [replaceChain, pyReplace_append]

theorem replaceChain_cons (c : Char) (l : List Char) :
    replaceChain (c :: l) = replaceChain [c] ++ replaceChain l := by
  have h : c :: l = [c] ++ l := rfl
  rw [h, replaceChain_append]

theorem filter_replaceChain_singleton (c : Char) :
    (replaceChain [c]).filter keepChar = specCleanChar c := by
  by_cases h1 : c = '@'
  · subst h1; rfl
  by_cases h2 : c = '#'
  · subst h2; rfl
  by_cases h3 : c = ' '
  · subst h3; rfl
  by_cases h4 : c = '-'
  · subst h4; rfl
  by_cases h5 : c = '.'
  · subst h5; rfl
  have hc : replaceChain [c] = [c] := by
    simp [replaceChain, pyReplace, h1, h2, h3, h4, h5]
  rw [hc]
  by_cases hk : keepChar c
  · simp [List.filter, specCleanChar, h1, h2, h3, h4, h5, hk]
  · simp [List.filter, specCleanChar, h1, h2, h3, h4, h5, hk]

theorem stripped_eq_spec (s : List Char) :
    (replaceChain s).filter keepChar = (s.map specCleanChar).flatten := by
  induction s with
  | nil => rfl
  | cons c l ih =>
    rw [replaceChain_cons, List.filter_append, filter_replaceChain_singleton,
      List.map_cons, List.flatten_cons, ih]

theorem keepChar_not_special (c : Char) (h : keepChar c = true) :
    c ≠ '@' ∧ c ≠ '#' ∧ c ≠ ' ' ∧ c ≠ '-' ∧ c ≠ '.' := by
  refine ⟨?_, ?_, ?_, ?_, ?_⟩ <;> rintro rfl <;> exact absurd h (by decide)

theorem replaceChain_keep (m : List Char) (h : ∀ c ∈ m, keepChar c = true) :
    replaceChain m = m := by
  induction m with
  | nil => rfl
  | cons c l ih =>
    rw [replaceChain_cons]
    obtain ⟨h1, h2, h3, h4, h5⟩ := keepChar_not_special c (h c (by simp))
    have hc : replaceChain [c] = [c] := by
      simp [replaceChain, pyReplace, h1, h2, h3, h4, h5]
    rw [hc, ih (fun d hd => h d (by simp [hd]))]
    rfl

theorem sanitizeChars_idem (s r : List Char) (h : sanitizeChars s = some r) :
    sanitizeChars r = some r := by
  unfold sanitizeChars at h
  rcases hst : (replaceChain s).filter keepChar with _ | ⟨c, rest⟩
  · rw [hst] at h; exact absurd h (by simp)
  rw [hst] at h
  have hkeep : ∀ d ∈ c :: rest, keepChar d = true := by
    intro d hd
    have hmem : d ∈ (replaceChain s).filter keepChar := by
      rw [hst]; exact hd
    exact List.of_mem_filter hmem
  simp only [Option.some.injEq] at h
  by_cases hdig : c.isDigit
  · rw [if_pos hdig] at h
    subst h
    have hkeep2 : ∀ d ∈ '_' :: c :: rest, keepChar d = true := by
      intro d hd
      rcases List.mem_cons.mp hd with hd | hd
      · subst hd; decide
      · exact hkeep d hd
    unfold sanitizeChars
    rw [replaceChain_keep _ hkeep2, List.filter_eq_self.mpr hkeep2]
    rfl
  · rw [if_neg hdig] at h
    subst h
    unfold sanitizeChars
    rw [replaceChain_keep _ hkeep, List.filter_eq_self.mpr hkeep]
    simp [hdig]

/-- C4: for every input string whose sanitized form is nonempty,
`sanitize_column_names` computes exactly the spec's formula — delete
`@` and `#`, turn space, `-` and `.` into `_`, drop every remaining
character that is not alphanumeric or `_`, and prepend `_` when the
result starts with a digit — and on the spec's two concrete examples it
returns `Total_Obligated_` and `_2025_value`. -/
theorem sanitize_computes_spec_formula :
    (∀ s : List Char, specNormalize s ≠ [] →
      sanitizeChars s = some (specNormalize s)) ∧
    sanitize_column_names "Total Obligated $" = some "Total_Obligated_" ∧
    sanitize_column_names "2025_value" = some "_2025_value" := by
  refine ⟨?_, rfl, rfl⟩
  intro s hne
  unfold sanitizeChars
  unfold specNormalize at hne ⊢
  rw [stripped_eq_spec s]
  rcases hflat : (s.map specCleanChar).flatten with _ | ⟨c, rest⟩
  · rw [hflat] at hne; exact absurd rfl hne
  · rfl

/-- Witness for C4 at the concrete segment `abc`. -/
theorem sanitize_computes_spec_formula_witness :
    sanitizeChars "abc".data = some (specNormalize "abc".data) :=
  sanitize_computes_spec_formula.1 "abc".data (by decide)

/-- C8: `sanitize_column_names` is a pure function (a Lean `def` with
no state), and it is idempotent on every string on which it succeeds:
a second application returns the first result unchanged. -/
theorem sanitize_idempotent :
    ∀ s r : String, sanitize_column_names s = some r →
      sanitize_column_names r = some r := by
  intro s r h
  unfold sanitize_column_names at h ⊢
  rcases hs : sanitizeChars s.data with _ | l
  · rw [hs] at h; exact Option.noConfusion h
  · rw [hs] at h
    have h2 : some (String.mk l) = some r := h
    obtain rfl : String.mk l = r := Option.some.inj h2
    have hdata : (String.mk l).data = l := rfl
    rw [hdata, sanitizeChars_idem s.data l hs]
    rfl

/-- Witness for C8 at the concrete input `a b`. -/
theorem sanitize_idempotent_witness :
    sanitize_column_names "a_b" = some "a_b" :=
  sanitize_idempotent "a b" "a_b" rfl

/-- C9: on a field name whose characters are all removed (here `$`),
the code does not raise an `EmptyColumnName` error: `new_name[0]`
crashes with `IndexError` on the empty sanitized string, modelled as
`none`; the spec-side formula confirms this is exactly the
empty-after-stripping case. -/
theorem sanitize_crash_on_all_stripped :
    sanitize_column_names "$" = none ∧ specNormalize "$".data = [] :=
  ⟨rfl, rfl⟩

/-!
Lemmas about split and join on the `_` delimiter.
-/

theorem splitUnderscore_ne_nil (s : List Char) : splitUnderscore s ≠ [] := by
  cases s with
  | nil => simp [splitUnderscore]
  | cons c cs =>
    unfold splitUnderscore
    rcases splitUnderscore cs with _ | ⟨seg, rest⟩
    · simp
    · by_cases hc : c = '_' <;> simp [hc]

theorem splitUnderscore_cons_eq (c : Char) (cs sg : List Char)
    (rest : List (List Char)) (hsp : splitUnderscore cs = sg :: rest) :
    splitUnderscore (c :: cs) =
      if c = '_' then [] :: sg :: rest else (c :: sg) :: rest := by
  unfold splitUnderscore
  rw [hsp]

theorem splitUnderscore_no_delim (s : List Char) :
    ∀ seg ∈ splitUnderscore s, '_' ∉ seg := by
  induction s with
  | nil => intro seg hseg; simp [splitUnderscore] at hseg; simp [hseg]
  | cons c cs ih =>
    intro seg hseg
    rcases hsp : splitUnderscore cs with _ | ⟨sg, rest⟩
    · exact absurd hsp (splitUnderscore_ne_nil cs)
    rw [splitUnderscore_cons_eq c cs sg rest hsp] at hseg
    have hsg : sg ∈ splitUnderscore cs := by rw [hsp]; simp
    by_cases hc : c = '_'
    · rw [if_pos hc] at hseg
      rcases List.mem_cons.mp hseg with rfl | hseg2
      · simp
      · exact ih seg (by rw [hsp]; exact hseg2)
    · rw [if_neg hc] at hseg
      rcases List.mem_cons.mp hseg with rfl | hseg2
      · intro hmem
        rcases List.mem_cons.mp hmem with hx | hx
        · exact hc hx.symm
        · exact ih sg hsg hx
      · exact ih seg (by rw [hsp]; simp [hseg2])

theorem splitUnderscore_of_no_delim (seg : List Char) (h : '_' ∉ seg) :
    splitUnderscore seg = [seg] := by
  induction seg with
  | nil => rfl
  | cons c cs ih =>
    have hc : c ≠ '_' := fun hx => h (by simp [hx])
    have hcs : '_' ∉ cs := fun hx => h (by simp [hx])
    unfold splitUnderscore
    rw [ih hcs]
    simp [hc]

theorem splitUnderscore_append_delim (seg t : List Char) (h : '_' ∉ seg) :
    splitUnderscore (seg ++ '_' :: t) = seg :: splitUnderscore t := by
  induction seg with
  | nil =>
    rcases hsp : splitUnderscore t with _ | ⟨sg, rest⟩
    · exact absurd hsp (splitUnderscore_ne_nil t)
    have hnil : ([] : List Char) ++ '_' :: t = '_' :: t := rfl
    rw [hnil, splitUnderscore_cons_eq '_' t sg rest hsp]
    simp
  | cons c cs ih =>
    have hc : c ≠ '_' := fun hx => h (by simp [hx])
    have hcs : '_' ∉ cs := fun hx => h (by simp [hx])
    have hstep : (c :: cs) ++ '_' :: t = c :: (cs ++ '_' :: t) := rfl
    rw [hstep, splitUnderscore_cons_eq c (cs ++ '_' :: t) cs
      (splitUnderscore t) (ih hcs), if_neg hc]

/-- C2: the flat-string column identity round-trips.  First conjunct:
every segment the pipeline produces (splitting a flat name on `_`, as
`create_dataframe` and the persisted-table reader do) is free of the
`_` delimiter.  Second conjunct: joining any such nonempty segment list
with `_` and splitting again reconstructs exactly the same ColumnPath. -/
theorem column_path_roundtrip :
    (∀ s : List Char, ∀ seg ∈ splitUnderscore s, '_' ∉ seg) ∧
    (∀ segs : List (List Char), segs ≠ [] → (∀ seg ∈ segs, '_' ∉ seg) →
      splitUnderscore (joinUnderscore segs) = segs) := by
  refine ⟨splitUnderscore_no_delim, ?_⟩
  intro segs hne hfree
  induction segs with
  | nil => exact absurd rfl hne
  | cons a rest ih =>
    rcases rest with _ | ⟨b, rest2⟩
    · have ha : '_' ∉ a := hfree a (by simp)
      unfold joinUnderscore
      exact splitUnderscore_of_no_delim a ha
    · have ha : '_' ∉ a := hfree a (by simp)
      have hjoin : joinUnderscore (a :: b :: rest2) =
          a ++ '_' :: joinUnderscore (b :: rest2) := rfl
      rw [hjoin, splitUnderscore_append_delim a _ ha,
        ih (by simp) (fun seg hseg => hfree seg (by simp [hseg]))]

/-- Witness for C2 on the concrete path `(a, b)` and the flat name
`a_b`. -/
theorem column_path_roundtrip_witness :
    splitUnderscore (joinUnderscore [['a'], ['b']]) = [['a'], ['b']] :=
  column_path_roundtrip.2 [['a'], ['b']] (by simp) (by decide)

/-- C5: the column sum is a total function that excludes, rather than
zeroes or errors on, every value that fails numeric coercion and every
missing value: `[10, "bad", null, 5]` sums to 15, and a column with no
coercible value sums to 0. -/
theorem sumNumeric_safe :
    sumNumeric [Json.num 10, Json.str "bad", Json.null, Json.num 5] = 15 ∧
    (∀ vs : List Json, (∀ v ∈ vs, to_numeric_coerce v = none) →
      sumNumeric vs = 0) := by
  constructor
  · unfold sumNumeric
    have h1 : List.filterMap to_numeric_coerce
        [Json.num 10, Json.str "bad", Json.null, Json.num 5] = [10, 5] := rfl
    rw [h1]
    show (0 : Rat) + 10 + 5 = 15
    norm_num
  · intro vs h
    unfold sumNumeric
    rw [List.filterMap_eq_nil_iff.mpr h]
    rfl

/-- Witness for C5 on a column with a single non-coercible value. -/
theorem sumNumeric_safe_witness :
    sumNumeric [Json.str "oops"] = 0 := by
  refine sumNumeric_safe.2 [Json.str "oops"] ?_
  intro v hv
  rcases List.mem_singleton.mp hv with rfl
  rfl

/-!
Lemmas about merging tables.
-/

theorem findCell_eq_none (row : List (ColPath × Json)) (p : ColPath)
    (h : ∀ kv ∈ row, kv.1 ≠ p) : findCell row p = none := by
  induction row with
  | nil => rfl
  | cons kv rest ih =>
    unfold findCell
    rw [if_neg (h kv (by simp))]
    exact ih (fun kv2 h2 => h kv2 (by simp [h2]))

/-- C6: for every existing table with m rows and incoming table with n
rows, the merge has exactly m+n rows, the existing rows occupy dense
positions 0..m-1 in their original order, the incoming rows occupy
positions m..m+n-1 in their original order, and a column absent from
one side reads as the missing-value marker on that side's rows. -/
theorem merge_preserves_rows :
    ∀ A B : Table,
      (mergeTables A B).rows.length = A.rows.length + B.rows.length ∧
      (∀ i : Nat, i < A.rows.length →
        (mergeTables A B).rows[i]? = A.rows[i]?) ∧
      (∀ j : Nat, j < B.rows.length →
        (mergeTables A B).rows[A.rows.length + j]? = B.rows[j]?) ∧
      (Wellformed A → ∀ i : Nat, i < A.rows.length → ∀ p : ColPath,
        p ∉ A.columns → Table.cell (mergeTables A B) i p = none) ∧
      (Wellformed B → ∀ j : Nat, j < B.rows.length → ∀ p : ColPath,
        p ∉ B.columns →
          Table.cell (mergeTables A B) (A.rows.length + j) p = none) := by
  intro A B
  have hleft : ∀ i : Nat, i < A.rows.length →
      (mergeTables A B).rows[i]? = A.rows[i]? := by
    intro i hi
    show (A.rows ++ B.rows)[i]? = A.rows[i]?
    exact List.getElem?_append_left hi
  have hright : ∀ j : Nat, j < B.rows.length →
      (mergeTables A B).rows[A.rows.length + j]? = B.rows[j]? := by
    intro j hj
    show (A.rows ++ B.rows)[A.rows.length + j]? = B.rows[j]?
    rw [List.getElem?_append_right (by omega)]
    congr 1
    omega
  refine ⟨by simp [mergeTables], hleft, hright, ?_, ?_⟩
  · intro hwf i hi p hp
    unfold Table.cell
    rw [hleft i hi]
    rcases hrow : A.rows[i]? with _ | row
    · rfl
    · obtain ⟨hlt, rfl⟩ := List.getElem?_eq_some.mp hrow
      have hmem : A.rows[i] ∈ A.rows := List.getElem_mem hlt
      show findCell A.rows[i] p = none
      refine findCell_eq_none _ p ?_
      intro kv hkv hEq
      exact hp (hEq ▸ hwf _ hmem kv.1 (List.mem_map.mpr ⟨kv, hkv, rfl⟩))
  · intro hwf j hj p hp
    unfold Table.cell
    rw [hright j hj]
    rcases hrow : B.rows[j]? with _ | row
    · rfl
    · obtain ⟨hlt, rfl⟩ := List.getElem?_eq_some.mp hrow
      have hmem : B.rows[j] ∈ B.rows := List.getElem_mem hlt
      show findCell B.rows[j] p = none
      refine findCell_eq_none _ p ?_
      intro kv hkv hEq
      exact hp (hEq ▸ hwf _ hmem kv.1 (List.mem_map.mpr ⟨kv, hkv, rfl⟩))

/-- Witness for C6 on two concrete one-row, one-column tables. -/
theorem merge_preserves_rows_witness :
    (mergeTables (Table.mk [["a"]] [[(["a"], Json.null)]])
        (Table.mk [["b"]] [[(["b"], Json.null)]])).rows.length = 1 + 1 ∧
    Table.cell (mergeTables (Table.mk [["a"]] [[(["a"], Json.null)]])
        (Table.mk [["b"]] [[(["b"], Json.null)]])) 1 ["a"] = none := by
  have h := merge_preserves_rows (Table.mk [["a"]] [[(["a"], Json.null)]])
    (Table.mk [["b"]] [[(["b"], Json.null)]])
  refine ⟨h.1, ?_⟩
  have hfill := h.2.2.2.2
  refine hfill ?_ 0 (by norm_num) ["a"] (by simp)
  intro row hrow k hk
  simp only [List.mem_singleton] at hrow
  subst hrow
  simp at hk
  simp [hk]

/-- C10: `create_dataframe` fails on a record list yielding zero
columns (in particular the empty list), because
`MultiIndex.from_tuples` cannot be built from an empty tuple list;
every table it returns has at least one column; and the driver in
`main` only invokes the builder when the loaded record list is
non-empty, keeping the existing table (or an empty DataFrame)
otherwise. -/
theorem build_rejects_zero_columns :
    create_dataframe [] = none ∧
    (∀ data : List Rec, ∀ t : Table, create_dataframe data = some t →
      t.columns ≠ []) ∧
    (∀ e : Table, mainStep (some e) [] = some e) ∧
    mainStep none [] = some emptyTable := by
  refine ⟨rfl, ?_, fun e => rfl, rfl⟩
  intro data t h
  simp only [create_dataframe] at h
  split at h
  · exact Option.noConfusion h
  · split at h
    · exact Option.noConfusion h
    · rename_i hp
      obtain rfl := Option.some.inj h
      simpa [List.isEmpty_iff] using hp

/-- Witness for C10 on a one-record input. -/
theorem build_rejects_zero_columns_witness :
    (Table.mk [["a"]] [[(["a"], Json.null)]]).columns ≠ [] := by
  refine build_rejects_zero_columns.2.1 [[("a", Json.null)]]
    (Table.mk [["a"]] [[(["a"], Json.null)]]) ?_
  have hflat : List.map flattenPairs [[("a", Json.null)]] =
      [[("a", Json.null)]] := by
    simp [flattenPairs]
  simp only [create_dataframe, hflat]
  rfl

/-!
Lemmas about the hash registry and the ingestion loop.
-/

theorem insertHash_mem (l : List String) (h x : String) :
    x ∈ insertHash l h ↔ x ∈ l ∨ x = h := by
  unfold insertHash
  by_cases hl : h ∈ l
  · rw [if_pos hl]
    constructor
    · exact fun hx => Or.inl hx
    · rintro (hx | rfl)
      · exact hx
      · exact hl
  · rw [if_neg hl]
    simp [List.mem_append]

theorem mem_unionHashes (hs ns : List String) (x : String) :
    x ∈ unionHashes hs ns ↔ x ∈ hs ∨ x ∈ ns := by
  induction ns generalizing hs with
  | nil => simp [unionHashes]
  | cons n rest ih =>
    show x ∈ unionHashes (insertHash hs n) rest ↔ _
    rw [ih (insertHash hs n), insertHash_mem]
    simp [List.mem_cons, or_assoc]

theorem foldl_processFile_newly (fs : List JFile) (acc : List Rec × List String)
    (x : String) :
    x ∈ (fs.foldl processFile acc).2 ↔
      x ∈ acc.2 ∨ ∃ g ∈ fs, g.hash = x ∧ g.doc ≠ Doc.decodeError := by
  induction fs generalizing acc with
  | nil => simp
  | cons f rest ih =>
    show x ∈ (rest.foldl processFile (processFile acc f)).2 ↔ _
    rw [ih (processFile acc f)]
    unfold processFile
    rcases hdoc : f.doc with recs | r | _ | _ <;>
      simp [hdoc, insertHash_mem, List.mem_cons] <;> tauto

theorem foldl_processFile_allDecode (fs : List JFile)
    (acc : List Rec × List String)
    (h : ∀ f ∈ fs, f.doc = Doc.decodeError) :
    fs.foldl processFile acc = acc := by
  induction fs generalizing acc with
  | nil => rfl
  | cons f rest ih =>
    show rest.foldl processFile (processFile acc f) = acc
    have hf : processFile acc f = acc := by
      unfold processFile
      rw [h f (by simp)]
    rw [hf]
    exact ih acc (fun g hg => h g (by simp [hg]))

/-- Uniform shape of a `load_json_files` run once the two structural
checks pass: the early `return data` on an empty to-process list
coincides with the general fold (the fold of nothing), so both source
paths produce the same value. -/
theorem loadJsonFiles_run (dir : Directory) (reg : List String)
    (hd : dir.isDir = true) (hf : dir.jsonFiles ≠ []) :
    loadJsonFiles dir reg =
      (if ((dir.jsonFiles.filter (fun f => decide (f.hash ∉ reg))).foldl
          processFile ([], [])).2.isEmpty then
        Except.ok ⟨((dir.jsonFiles.filter (fun f => decide (f.hash ∉ reg))).foldl
          processFile ([], [])).1,
          ((dir.jsonFiles.filter (fun f => decide (f.hash ∉ reg))).foldl
            processFile ([], [])).2, false, reg⟩
      else
        Except.ok ⟨((dir.jsonFiles.filter (fun f => decide (f.hash ∉ reg))).foldl
          processFile ([], [])).1,
          ((dir.jsonFiles.filter (fun f => decide (f.hash ∉ reg))).foldl
            processFile ([], [])).2, true,
          unionHashes reg ((dir.jsonFiles.filter
            (fun f => decide (f.hash ∉ reg))).foldl processFile ([], [])).2⟩) := by
  unfold loadJsonFiles
  rw [hd]
  rw [if_neg (by simp)]
  rw [if_neg (by simpa [List.isEmpty_iff] using hf)]
  by_cases hftp : (dir.jsonFiles.filter (fun f => decide (f.hash ∉ reg))).isEmpty
  · rw [if_pos hftp]
    have hnil : dir.jsonFiles.filter (fun f => decide (f.hash ∉ reg)) = [] :=
      List.isEmpty_iff.mp hftp
    rw [hnil]
    rfl
  · rw [if_neg hftp]

/-- C7: ingestion errors with `DirectoryNotFound` exactly when the
configured path is not a directory, errors with `NoInputFiles` exactly
when the directory holds no `*.json` file, and returns the empty record
list as a normal success (without rewriting the registry) when files
exist but all hashes are already registered. -/
theorem load_error_taxonomy :
    ∀ (dir : Directory) (reg : List String),
      (loadJsonFiles dir reg = Except.error LoadErr.DirectoryNotFound ↔
        dir.isDir = false) ∧
      (loadJsonFiles dir reg = Except.error LoadErr.NoInputFiles ↔
        dir.isDir = true ∧ dir.jsonFiles = []) ∧
      (dir.isDir = true → dir.jsonFiles ≠ [] →
        (∀ f ∈ dir.jsonFiles, f.hash ∈ reg) →
        loadJsonFiles dir reg = Except.ok ⟨[], [], false, reg⟩) := by
  intro dir reg
  by_cases hd : dir.isDir = true
  · by_cases hf : dir.jsonFiles = []
    · have hres : loadJsonFiles dir reg = Except.error LoadErr.NoInputFiles := by
        unfold loadJsonFiles
        rw [hd, hf]
        rfl
      refine ⟨?_, ?_, ?_⟩
      · rw [hres]; simp [hd]
      · rw [hres]; simp [hd, hf]
      · intro _ hne _; exact absurd hf hne
    · have hrun := loadJsonFiles_run dir reg hd hf
      have hok : ∃ out, loadJsonFiles dir reg = Except.ok out := by
        rw [hrun]; split
        · exact ⟨_, rfl⟩
        · exact ⟨_, rfl⟩
      obtain ⟨out, hout⟩ := hok
      refine ⟨?_, ?_, ?_⟩
      · rw [hout]; simp [hd]
      · rw [hout]; simp [hf]
      · intro _ _ hall
        have hftp : dir.jsonFiles.filter (fun f => decide (f.hash ∉ reg)) = [] := by
          refine List.filter_eq_nil_iff.mpr ?_
          intro f hfm hdec
          rw [decide_eq_true_eq] at hdec
          exact hdec (hall f hfm)
        rw [hrun, hftp]
        rfl
  · have hres : loadJsonFiles dir reg = Except.error LoadErr.DirectoryNotFound := by
      unfold loadJsonFiles
      rw [if_pos hd]
    have hd2 : dir.isDir = false := by simpa using hd
    refine ⟨?_, ?_, ?_⟩
    · rw [hres]; simp [hd2]
    · rw [hres]; simp [hd2]
    · intro hcon; exact absurd hcon hd

/-- Witness for C7: a directory whose single file is already
registered returns the empty list without rewriting the registry. -/
theorem load_error_taxonomy_witness :
    loadJsonFiles (Directory.mk true [JFile.mk "h1" Doc.other]) ["h1"] =
      Except.ok ⟨[], [], false, ["h1"]⟩ := by
  refine (load_error_taxonomy (Directory.mk true [JFile.mk "h1" Doc.other])
    ["h1"]).2.2 rfl (by simp) ?_
  intro f hf
  simp only [List.mem_singleton] at hf
  subst hf
  simp

/-- C3: a to-be-processed file's hash lands in the newly-processed set
if and only if its document parsed without a decode error (lists,
dicts and other successfully parsed shapes all count), a file failing
to decode stays unregistered for retry, and the run still returns
normally. -/
theorem newly_processed_iff_parsed :
    ∀ (dir : Directory) (reg : List String) (f : JFile),
      dir.isDir = true → dir.jsonFiles ≠ [] → f ∈ dir.jsonFiles →
      f.hash ∉ reg →
      (∀ g ∈ dir.jsonFiles, g.hash = f.hash → g.doc = f.doc) →
      ∃ out, loadJsonFiles dir reg = Except.ok out ∧
        (f.hash ∈ out.newlyProcessed ↔ f.doc ≠ Doc.decodeError) := by
  intro dir reg f hd hne hmem hreg hinj
  have hrun := loadJsonFiles_run dir reg hd hne
  have hfmem : f ∈ dir.jsonFiles.filter (fun g => decide (g.hash ∉ reg)) :=
    List.mem_filter.mpr ⟨hmem, by simpa using hreg⟩
  have hiff : f.hash ∈ ((dir.jsonFiles.filter
      (fun g => decide (g.hash ∉ reg))).foldl processFile ([], [])).2 ↔
      f.doc ≠ Doc.decodeError := by
    rw [foldl_processFile_newly]
    constructor
    · rintro (hx | ⟨g, hg, hgh, hgd⟩)
      · exact absurd hx (List.not_mem_nil _)
      · have hgd2 : g.doc = f.doc := hinj g (List.mem_filter.mp hg).1 hgh
        exact fun hfd => hgd (hgd2.trans hfd)
    · intro hfd
      exact Or.inr ⟨f, hfmem, rfl, hfd⟩
  rw [hrun]
  by_cases hempty : ((dir.jsonFiles.filter
      (fun g => decide (g.hash ∉ reg))).foldl processFile ([], [])).2.isEmpty
  · rw [if_pos hempty]
    exact ⟨_, rfl, hiff⟩
  · rw [if_neg hempty]
    exact ⟨_, rfl, hiff⟩

/-- Witness for C3 on a one-file directory whose file parses with an
unexpected top-level shape. -/
theorem newly_processed_iff_parsed_witness :
    ∃ out, loadJsonFiles (Directory.mk true [JFile.mk "h1" Doc.other]) [] =
        Except.ok out ∧
      ((JFile.mk "h1" Doc.other).hash ∈ out.newlyProcessed ↔
        (JFile.mk "h1" Doc.other).doc ≠ Doc.decodeError) := by
  refine newly_processed_iff_parsed (Directory.mk true [JFile.mk "h1" Doc.other])
    [] (JFile.mk "h1" Doc.other) rfl (by simp) (by simp) (by simp) ?_
  intro g hg hgh
  simp only [List.mem_singleton] at hg
  subst hg
  rfl

/-- C1: ingestion is idempotent.  If a run succeeds and its registry
state is persisted, a second run over the same directory with that
registry returns the empty record list and does not rewrite the
registry file (the write happens only for a non-empty newly-processed
set). -/
theorem ingestion_idempotent :
    ∀ (dir : Directory) (reg : List String) (out : LoadResult),
      loadJsonFiles dir reg = Except.ok out →
      loadJsonFiles dir out.persisted =
        Except.ok ⟨[], [], false, out.persisted⟩ := by
  intro dir reg out h
  have hd : dir.isDir = true := by
    by_contra hd
    unfold loadJsonFiles at h
    rw [if_pos hd] at h
    exact Except.noConfusion h
  have hne : dir.jsonFiles ≠ [] := by
    intro hnil
    unfold loadJsonFiles at h
    rw [if_neg (by simp [hd])] at h
    rw [if_pos (by simp [hnil])] at h
    exact Except.noConfusion h
  rw [loadJsonFiles_run dir reg hd hne] at h
  have hkey : ∀ g ∈ dir.jsonFiles, g.hash ∉ out.persisted →
      g.doc = Doc.decodeError := by
    intro g hg hgp
    by_contra hgd
    by_cases hempty : ((dir.jsonFiles.filter
        (fun x => decide (x.hash ∉ reg))).foldl processFile ([], [])).2.isEmpty
    · rw [if_pos hempty] at h
      obtain rfl := Except.ok.inj h
      have hgreg : g.hash ∉ reg := hgp
      have hgF : g ∈ dir.jsonFiles.filter (fun x => decide (x.hash ∉ reg)) :=
        List.mem_filter.mpr ⟨hg, by simpa using hgreg⟩
      have hin : g.hash ∈ ((dir.jsonFiles.filter
          (fun x => decide (x.hash ∉ reg))).foldl processFile ([], [])).2 :=
        (foldl_processFile_newly _ _ _).mpr (Or.inr ⟨g, hgF, rfl, hgd⟩)
      rw [List.isEmpty_iff.mp hempty] at hin
      exact absurd hin (List.not_mem_nil _)
    · rw [if_neg hempty] at h
      obtain rfl := Except.ok.inj h
      have hgu : g.hash ∉ unionHashes reg ((dir.jsonFiles.filter
          (fun x => decide (x.hash ∉ reg))).foldl processFile ([], [])).2 := hgp
      rw [mem_unionHashes] at hgu
      push_neg at hgu
      have hgF : g ∈ dir.jsonFiles.filter (fun x => decide (x.hash ∉ reg)) :=
        List.mem_filter.mpr ⟨hg, by simpa using hgu.1⟩
      exact hgu.2 ((foldl_processFile_newly _ _ _).mpr (Or.inr ⟨g, hgF, rfl, hgd⟩))
  rw [loadJsonFiles_run dir out.persisted hd hne]
  have hall : ∀ g ∈ dir.jsonFiles.filter
      (fun x => decide (x.hash ∉ out.persisted)), g.doc = Doc.decodeError := by
    intro g hg
    obtain ⟨hgm, hgdec⟩ := List.mem_filter.mp hg
    exact hkey g hgm (by simpa using hgdec)
  rw [foldl_processFile_allDecode _ _ hall]
  rfl

/-- Witness for C1: after a first run over a one-file directory, the
second run with the persisted registry yields no records and no
registry write. -/
theorem ingestion_idempotent_witness :
    loadJsonFiles (Directory.mk true [JFile.mk "h1" Doc.other])
        (LoadResult.mk [] ["h1"] true ["h1"]).persisted =
      Except.ok ⟨[], [], false,
        (LoadResult.mk [] ["h1"] true ["h1"]).persisted⟩ :=
  ingestion_idempotent (Directory.mk true [JFile.mk "h1" Doc.other]) []
    (LoadResult.mk [] ["h1"] true ["h1"]) rfl
